import Mathlib

/-
Shallow embedding of the salary-per-hour ETL pipeline
(repository: DE_salary_per_hour).

Source files embedded:
  src/common_package/transform/transform_pipeline.py
  src/common_package/extract/extract_pipeline.py
  src/common_package/load/load_pipeline.py
  src/etl_branch_salary.py

Modelling conventions:
  * A pandas DataFrame is a Lean `List` of records, in row order; the
    default RangeIndex is the list position (`List.enum`).  Pandas sorts
    group keys in `groupby`; our `groupby` keeps first-appearance order,
    which no statement below depends on.
  * A time-of-day / timedelta value is a duration in whole seconds
    (`Nat`); a nullable column value is an `Option`.  The
    `astype(str)` / `pd.to_timedelta(..., errors='coerce')` round trip of
    `process_timesheets_column` is the identity on a parseable-or-missing
    value, so a cell is `some seconds` (parseable) or `none`
    (missing / unparseable, pandas NaT).
  * Money and fractional hours are `ℚ` (the Python values are floats;
    every operation performed on them here is exact).
  * A raised Python exception is `Except.error`.
-/

namespace DESalary

/-- A calendar date, as carried by the `date` column. -/
structure Date where
  year : Nat
  month : Nat
  day : Nat
deriving DecidableEq

/-- One row of the timesheets DataFrame (a punch record). -/
structure PunchRecord where
  timesheet_id : Nat
  employee_id : Nat
  date : Date
  checkin : Option Nat
  checkout : Option Nat
deriving DecidableEq

/-- One row of the employees DataFrame.  The source CSV column is named
`employe_id`; `merge_employees_timesheets` renames it to `employee_id`
before joining. -/
structure EmployeeRecord where
  employe_id : Nat
  branch_id : Nat
  salary : ℚ
deriving DecidableEq

/-! ## transform_pipeline.remove_duplicates -/

/-- The (employee_id, date) key used by `timesheets.duplicated(subset=...)`. -/
def rkey (r : PunchRecord) : Nat × Date :=
  (r.employee_id, r.date)

/-- Number of rows of `ts` carrying the (employee_id, date) key `k`. -/
def pairCount (ts : List PunchRecord) (k : Nat × Date) : Nat :=
  (ts.filter (fun r => decide (rkey r = k))).length

/-- Equality of two rows on every column except `timesheet_id`
(`duplicate_subset.drop(['timesheet_id'], axis=1).duplicated(...)`). -/
def eqExceptId (r s : PunchRecord) : Prop :=
  r.employee_id = s.employee_id ∧ r.date = s.date ∧
    r.checkin = s.checkin ∧ r.checkout = s.checkout

instance : DecidablePred fun p : PunchRecord × PunchRecord => eqExceptId p.1 p.2 :=
  fun _ => by unfold eqExceptId; infer_instance

instance (r s : PunchRecord) : Decidable (eqExceptId r s) := by
  unfold eqExceptId; infer_instance

/-- The rows of the (indexed) table carrying key `k`
(`duplicate_subset = timesheets[mask]`). -/
def subsetFor (ents : List (Nat × PunchRecord)) (k : Nat × Date) :
    List (Nat × PunchRecord) :=
  ents.filter (fun p => decide (rkey p.2 = k))

/-- Index of the first row of the subset that repeats an earlier row of the
subset on all columns except `timesheet_id`
(`duplicated(keep='first')` followed by `duplicate_indices[0]`).
`seen` accumulates the rows already scanned. -/
def firstDupIdx (seen : List PunchRecord) :
    List (Nat × PunchRecord) → Option Nat
  | [] => none
  | p :: rest =>
      if seen.any (fun q => decide (eqExceptId q p.2)) then some p.1
      else firstDupIdx (p.2 :: seen) rest

/-- The indices appended to `index_to_delete` by one iteration of the loop
body of `remove_duplicates`, for a row whose key is `k`.  The body depends
on the row only through its key: first a row of the key's subset with a
null checkout, otherwise the first repeated row ignoring `timesheet_id`. -/
def rowMarks (ents : List (Nat × PunchRecord)) (k : Nat × Date) : List Nat :=
  match (subsetFor ents k).filter (fun p => decide (p.2.checkout = none)) with
  | p :: _ => [p.1]
  | [] =>
      match firstDupIdx [] (subsetFor ents k) with
      | some i => [i]
      | none => []

/-- `transform_pipeline.remove_duplicates`: iterate over the rows whose
(employee_id, date) key occurs at least twice (`duplicated(keep=False)`),
accumulate indices to delete, and drop them at the end
(`timesheets.drop(index=index_to_delete)`). -/
def remove_duplicates (ts : List PunchRecord) : List PunchRecord :=
  let ents := ts.enum
  let dupRows := ents.filter (fun p => decide (2 ≤ pairCount ts (rkey p.2)))
  let toDelete := dupRows.flatMap (fun p => rowMarks ents (rkey p.2))
  (ents.filter (fun p => decide (p.1 ∉ toDelete))).map Prod.snd

/-! ## transform_pipeline.process_timesheets_column / transform_times -/

/-- One `np.select(conditions, choices, default=column)` application, one
row at a time: the first matching condition wins and the row's column is
replaced by the corresponding choice; a row matching no condition keeps
its value.  `process_timesheets_column` applies exactly one such
(conditions, choices) pair per column. -/
def npSelect (rules : List ((PunchRecord → Bool) × Nat))
    (set : PunchRecord → Nat → PunchRecord) (r : PunchRecord) : PunchRecord :=
  match rules.find? (fun c => c.1 r) with
  | some c => set r c.2
  | none => r

/-- `transform_pipeline.process_timesheets_column`, specialised to the one
(conditions, choices) pair each call receives.  The trailing
`pd.to_timedelta(..., errors='coerce')` is the identity on our
`Option Nat` cells (see the header comment). -/
def process_timesheets_column (set : PunchRecord → Nat → PunchRecord)
    (rules : List ((PunchRecord → Bool) × Nat))
    (ts : List PunchRecord) : List PunchRecord :=
  ts.map (npSelect rules set)

def setCheckout (r : PunchRecord) (v : Nat) : PunchRecord :=
  { r with checkout := some v }

def setCheckin (r : PunchRecord) (v : Nat) : PunchRecord :=
  { r with checkin := some v }

/-- `checkout_condition_choices` of `transform_times`.  Thresholds and
fills in seconds: 12:00:00 = 43200, 18:00:00 = 64800,
1 day 08:00:00 = 115200.  A NaT checkin makes both comparisons false. -/
def checkout_condition_choices : List ((PunchRecord → Bool) × Nat) :=
  [ (fun r => r.checkout.isNone &&
      (match r.checkin with | some ci => decide (ci ≤ 43200) | none => false),
     64800),
    (fun r => r.checkout.isNone &&
      (match r.checkin with | some ci => decide (43200 < ci) | none => false),
     115200) ]

/-- `checkin_condition_choices` of `transform_times`, built after the
checkout column is processed, hence reading the possibly imputed checkout.
09:00:00 = 32400. -/
def checkin_condition_choices : List ((PunchRecord → Bool) × Nat) :=
  [ (fun r => r.checkin.isNone &&
      (match r.checkout with | some co => decide (co ≤ 32400) | none => false),
     0),
    (fun r => r.checkin.isNone &&
      (match r.checkout with | some co => decide (32400 < co) | none => false),
     32400) ]

/-- `transform_pipeline.transform_times`: process the checkout column
first, then the checkin column. -/
def transform_times (ts : List PunchRecord) : List PunchRecord :=
  process_timesheets_column setCheckin checkin_condition_choices
    (process_timesheets_column setCheckout checkout_condition_choices ts)

/-- The imputation behaviour as the spec's rule table states it, one row
at a time (for comparison with `transform_times`): a missing checkout is
filled from the checkin (18:00:00 same day when checkin ≤ 12:00:00,
1 day + 08:00:00 otherwise); afterwards a missing checkin is filled from
the — possibly just imputed — checkout (00:00:00 when checkout ≤
09:00:00, 09:00:00 otherwise); a row matching no rule keeps its value. -/
def ruleTableSpec (r : PunchRecord) : PunchRecord :=
  let checkout' : Option Nat :=
    match r.checkout, r.checkin with
    | none, some ci => some (if ci ≤ 43200 then 64800 else 115200)
    | co, _ => co
  let checkin' : Option Nat :=
    match r.checkin, checkout' with
    | none, some co => some (if co ≤ 32400 then 0 else 32400)
    | ci, _ => ci
  { r with checkin := checkin', checkout := checkout' }

/-! ## transform_pipeline.adjust_checkout_times -/

/-- A punch row after `adjust_checkout_times` added the `time_diff`
(seconds) and `hours_diff` columns. -/
structure AdjustedRecord where
  timesheet_id : Nat
  employee_id : Nat
  date : Date
  checkin : Option Nat
  checkout : Option Nat
  time_diff : Option Int
  hours_diff : Option ℚ
deriving DecidableEq

/-- Row action of `adjust_checkout_times`: where `checkin > checkout`
(false when either is NaT), add one day to checkout; then
`time_diff = checkout - checkin` and
`hours_diff = time_diff.dt.total_seconds() / 3600`. -/
def adjustRecord (r : PunchRecord) : AdjustedRecord :=
  let checkout' : Option Nat :=
    match r.checkin, r.checkout with
    | some ci, some co => if co < ci then some (co + 86400) else some co
    | _, co => co
  let td : Option Int :=
    match r.checkin, checkout' with
    | some ci, some co => some ((co : Int) - (ci : Int))
    | _, _ => none
  { timesheet_id := r.timesheet_id, employee_id := r.employee_id,
    date := r.date, checkin := r.checkin, checkout := checkout',
    time_diff := td, hours_diff := td.map (fun d : Int => (d : ℚ) / 3600) }

/-- `transform_pipeline.adjust_checkout_times` (all column operations are
row-wise). -/
def adjust_checkout_times (ts : List PunchRecord) : List AdjustedRecord :=
  ts.map adjustRecord

/-! ## transform_pipeline.merge_employees_timesheets -/

/-- One row of the merged DataFrame: the punch columns, the employee
columns (null when the left join found no matching employee), and the
`year` / `month` columns derived from `date`. -/
structure MergedRecord where
  timesheet_id : Nat
  employee_id : Nat
  date : Date
  checkin : Option Nat
  checkout : Option Nat
  time_diff : Option Int
  hours_diff : Option ℚ
  branch_id : Option Nat
  salary : Option ℚ
  year : Nat
  month : Nat
deriving DecidableEq

/-- The merged rows produced by one punch row under
`pd.merge(timesheets, employees_renamed, on='employee_id', how='left')`:
one output row per matching employee row, or a single row with null
`branch_id` and `salary` when none matches.  The rename
`employe_id -> employee_id` is reflected in the join condition. -/
def mergeRow (employees : List EmployeeRecord) (t : AdjustedRecord) :
    List MergedRecord :=
  let base : MergedRecord :=
    { timesheet_id := t.timesheet_id, employee_id := t.employee_id,
      date := t.date, checkin := t.checkin, checkout := t.checkout,
      time_diff := t.time_diff, hours_diff := t.hours_diff,
      branch_id := none, salary := none,
      year := t.date.year, month := t.date.month }
  match employees.filter (fun e => decide (e.employe_id = t.employee_id)) with
  | [] => [base]
  | ms => ms.map (fun e =>
      { base with branch_id := some e.branch_id, salary := some e.salary })

/-- `transform_pipeline.merge_employees_timesheets`: rename the employee
id column, left-join, and derive `year` / `month` from `date`. -/
def merge_employees_timesheets (ts : List AdjustedRecord)
    (employees : List EmployeeRecord) : List MergedRecord :=
  ts.flatMap (mergeRow employees)

/-! ## transform_pipeline.aggregate_data -/

/-- An abstract pandas `groupby` over a list of rows: rows are placed in
the group of their key; a row joins the existing group of its key or
opens a new one.  (Pandas additionally sorts the group keys; nothing
below depends on group order.) -/
def insertIntoGroups {α κ : Type} [DecidableEq κ] (k : κ) (a : α) :
    List (κ × List α) → List (κ × List α)
  | [] => [(k, [a])]
  | (k', g) :: rest =>
      if k = k' then (k', g ++ [a]) :: rest
      else (k', g) :: insertIntoGroups k a rest

def groupby {α κ : Type} [DecidableEq κ] (key : α → κ) (rows : List α) :
    List (κ × List α) :=
  rows.foldl (fun acc a => insertIntoGroups (key a) a acc) []

/-- A merged row admitted to the stage-1 `groupby`: pandas `groupby`
drops (default `dropna=True`) every row with a null value in a grouping
column, here `branch_id` or `salary`. -/
structure KeyedMergedRow where
  year : Nat
  month : Nat
  branch_id : Nat
  salary : ℚ
  hours_diff : Option ℚ
deriving DecidableEq

/-- The merged rows that survive the stage-1 grouping-key null check. -/
def keptRows (merged : List MergedRecord) : List KeyedMergedRow :=
  merged.filterMap (fun r =>
    match r.branch_id, r.salary with
    | some b, some s =>
        some { year := r.year, month := r.month, branch_id := b,
               salary := s, hours_diff := r.hours_diff }
    | _, _ => none)

/-- One row of the stage-1 aggregate
(`groupby(['year','month','branch_id','salary']).agg({'hours_diff':'sum'})`). -/
structure StageOneRecord where
  year : Nat
  month : Nat
  branch_id : Nat
  salary : ℚ
  hours_diff : ℚ
deriving DecidableEq

/-- One row of the final aggregate. -/
structure AggregatedRecord where
  year : Nat
  month : Nat
  branch_id : Nat
  hours_diff : ℚ
  salary : ℚ
  salary_per_hour : ℚ
deriving DecidableEq

/-- Stage 1 of `aggregate_data`: group the kept rows by
(year, month, branch_id, salary) and sum `hours_diff` (a pandas sum
skips NaN and yields 0 on an all-NaN group, hence `Option.getD 0`). -/
def stageOne (merged : List MergedRecord) : List StageOneRecord :=
  (groupby (fun r : KeyedMergedRow => (r.year, r.month, r.branch_id, r.salary))
      (keptRows merged)).map
    (fun kg =>
      { year := kg.1.1, month := kg.1.2.1, branch_id := kg.1.2.2.1,
        salary := kg.1.2.2.2,
        hours_diff := (kg.2.map (fun r => r.hours_diff.getD 0)).sum })

/-- `transform_pipeline.aggregate_data`: the two-stage roll-up and the
guarded `salary_per_hour` division. -/
def aggregate_data (merged : List MergedRecord) : List AggregatedRecord :=
  (groupby (fun r : StageOneRecord => (r.year, r.month, r.branch_id))
      (stageOne merged)).map
    (fun kg =>
      let hours := (kg.2.map StageOneRecord.hours_diff).sum
      let sal := (kg.2.map StageOneRecord.salary).sum
      { year := kg.1.1, month := kg.1.2.1, branch_id := kg.1.2.2,
        hours_diff := hours, salary := sal,
        salary_per_hour := if hours ≠ 0 then sal / hours else 0 })

/-! ## extract_pipeline.load_csv -/

/-- `extract_pipeline.load_csv`, past the file read: `rows` is the parsed
CSV content, `date` reads the row's `date` column as a timestamp in
seconds (`pd.to_datetime`), and `now` is `datetime.now()` in the same
scale.  When `data_type` is 'timesheets' the rows are filtered to dates
strictly after `now` minus one day; any other `data_type` is returned
unfiltered. -/
def load_csv {α : Type} (date : α → Int) (data_type : String) (now : Int)
    (rows : List α) : List α :=
  if data_type = "timesheets" then
    rows.filter (fun r => decide (now - 86400 < date r))
  else rows

/-! ## load_pipeline.load_to_bigquery and etl_branch_salary.etl -/

/-- `load_pipeline.load_to_bigquery`: the BigQuery calls are external
I/O, modelled by their outcome `upload`; the function's own
`try/except` logs the failure and re-raises it (`raise`), so the
outcome passes through unchanged. -/
def load_to_bigquery (upload : Except String Unit) : Except String Unit :=
  match upload with
  | Except.ok u => Except.ok u
  | Except.error e => Except.error e

/-- `etl_branch_salary.etl`: the two `load_csv` reads are modelled by
their outcomes, the sink by a function from the final aggregate to an
outcome.  The body runs the pipeline; the surrounding
`except Exception as e: logger.error(...)` absorbs every exception and
returns normally (there is no `raise`), so `etl` itself never
propagates an error. -/
def etl (employeesSrc : Except String (List EmployeeRecord))
    (timesheetsSrc : Except String (List PunchRecord))
    (sink : List AggregatedRecord → Except String Unit) :
    Except String Unit :=
  let body : Except String Unit := do
    let employees ← employeesSrc
    let ts0 ← timesheetsSrc
    let ts1 := remove_duplicates ts0
    let ts2 := transform_times ts1
    let ts3 := adjust_checkout_times ts2
    let finalData := aggregate_data (merge_employees_timesheets ts3 employees)
    load_to_bigquery (sink finalData)
  match body with
  | Except.ok _ => Except.ok ()
  | Except.error _ => Except.ok ()

/-! ## Theorems -/

/-- C4.  The claim says a `load_to_bigquery` failure propagates out of
`etl`; in the code the top-level `except Exception` clause of `etl` logs
the error and returns normally, so even with both inputs loaded and a
sink that raises, `etl` reports success to its caller.  (The sink error
does reach `etl`: `load_to_bigquery` itself re-raises.) -/
theorem etl_absorbs_sink_failure (employees : List EmployeeRecord)
    (ts : List PunchRecord) (msg : String) :
    etl (Except.ok employees) (Except.ok ts) (fun _ => Except.error msg) =
      Except.ok () := rfl

/-- C10.  `load_csv` with `data_type = "timesheets"` keeps exactly the
rows whose date is strictly later than `now` minus one day (86400 s);
with any other `data_type` it returns the rows unchanged. -/
theorem load_csv_timesheets_filter {α : Type} (date : α → Int)
    (rows : List α) (now : Int) (dt : String) :
    (∀ r, r ∈ load_csv date "timesheets" now rows ↔
        r ∈ rows ∧ now - 86400 < date r)
    ∧ (dt ≠ "timesheets" → load_csv date dt now rows = rows) := by
  constructor
  · intro r
    simp [load_csv, List.mem_filter]
  · intro h
    simp [load_csv, h]

/-- Witness for C10: `now = 86500`; the punch dated 100 survives the
timesheets filter and the employees call is returned unfiltered. -/
theorem load_csv_timesheets_filter_witness :
    ((100 : Int) ∈ load_csv (fun x : Int => x) "timesheets" 86500 [0, 100] ↔
      (100 : Int) ∈ [(0 : Int), 100] ∧ (86500 : Int) - 86400 < 100)
    ∧ load_csv (fun x : Int => x) "employees" 86500 [0, 100] = [0, 100] :=
  ⟨(load_csv_timesheets_filter (fun x : Int => x) [0, 100] 86500 "employees").1 100,
   (load_csv_timesheets_filter (fun x : Int => x) [0, 100] 86500 "employees").2
     (by decide)⟩

/-- C9.  Every aggregated row's `salary_per_hour` is the guarded
quotient: total salary / total hours when the hours are nonzero, and
exactly 0 when they are zero; `aggregate_data` is a total function, so a
zero-hours group is an ordinary result. -/
theorem aggregate_data_salary_per_hour_guarded (merged : List MergedRecord)
    (g : AggregatedRecord) (hg : g ∈ aggregate_data merged) :
    g.salary_per_hour =
      if g.hours_diff ≠ 0 then g.salary / g.hours_diff else 0 := by
  rcases List.mem_map.mp hg with ⟨kg, -, rfl⟩
  rfl

/-- Witness for C9 on a one-row merged table (1 hour, salary 3000). -/
theorem aggregate_data_salary_per_hour_guarded_witness :
    (AggregatedRecord.mk 2023 8 9 1 3000 3000).salary_per_hour =
      if (AggregatedRecord.mk 2023 8 9 1 3000 3000).hours_diff ≠ 0 then
        (AggregatedRecord.mk 2023 8 9 1 3000 3000).salary /
          (AggregatedRecord.mk 2023 8 9 1 3000 3000).hours_diff
      else 0 :=
  aggregate_data_salary_per_hour_guarded
    [⟨1, 5, ⟨2023, 8, 21⟩, some 0, some 3600, some 3600, some 1,
      some 9, some 3000, 2023, 8⟩]
    (AggregatedRecord.mk 2023 8 9 1 3000 3000)
    (by
      have h0 : aggregate_data
          [⟨1, 5, ⟨2023, 8, 21⟩, some 0, some 3600, some 3600, some 1,
            some 9, some 3000, 2023, 8⟩] =
          [⟨2023, 8, 9, List.sum [List.sum [(1 : ℚ)]], List.sum [(3000 : ℚ)],
            if List.sum [List.sum [(1 : ℚ)]] ≠ 0 then
              List.sum [(3000 : ℚ)] / List.sum [List.sum [(1 : ℚ)]]
            else 0⟩] := rfl
      rw [h0]
      norm_num [List.sum_singleton, AggregatedRecord.mk.injEq])

/-- Row-level comparison of the code's masked `np.select` machinery with
the spec's rule table: processing the checkout rules and then the
checkin rules acts on each row exactly as `ruleTableSpec`. -/
lemma npSelect_rules_eq_spec (r : PunchRecord) :
    npSelect checkin_condition_choices setCheckin
      (npSelect checkout_condition_choices setCheckout r) = ruleTableSpec r := by
  obtain ⟨tid, eid, d, ci?, co?⟩ := r
  rcases co? with _ | co <;> rcases ci? with _ | ci
  · rfl
  · by_cases h : ci ≤ 43200 <;>
      simp [npSelect, checkout_condition_choices, checkin_condition_choices,
        setCheckout, setCheckin, ruleTableSpec, List.find?, h,
        Nat.not_le.mp, Nat.lt_of_not_le]
  · by_cases h : co ≤ 32400 <;>
      simp [npSelect, checkout_condition_choices, checkin_condition_choices,
        setCheckout, setCheckin, ruleTableSpec, List.find?, h,
        Nat.lt_of_not_le]
  · rfl

/-- C6.  `transform_times` implements the spec's imputation rule table
row by row: a missing checkout is filled with 18:00:00 when the checkin
is ≤ 12:00:00 and with 1 day + 08:00:00 when it is later; afterwards a
missing checkin is filled with 00:00:00 when the (possibly just
imputed) checkout is ≤ 09:00:00 and with 09:00:00 when it is later;
rows matching no rule are untouched, and the checkout column is
processed strictly before the checkin column (`ruleTableSpec` reads the
imputed checkout when filling the checkin). -/
theorem transform_times_rule_table (ts : List PunchRecord) :
    transform_times ts = ts.map ruleTableSpec := by
  unfold transform_times process_timesheets_column
  rw [List.map_map]
  exact List.map_congr_left (fun r _ => npSelect_rules_eq_spec r)

/-- C7.  For a record with both times present and (time-of-day) checkin
strictly greater than checkout, `adjust_checkout_times` adds 24 hours
(86400 s) to the checkout and computes
`hours_diff = (checkout - checkin) / 3600` in fractional hours, the
checkout being the adjusted one. -/
theorem adjust_checkout_times_overnight (ts : List PunchRecord) (i : Nat)
    (r : PunchRecord) (ci co : Nat) (hr : ts[i]? = some r)
    (hci : r.checkin = some ci) (hco : r.checkout = some co)
    (_hci24 : ci < 86400) (_hco24 : co < 86400) (hlt : co < ci) :
    (adjust_checkout_times ts)[i]? = some
      { timesheet_id := r.timesheet_id, employee_id := r.employee_id,
        date := r.date, checkin := some ci, checkout := some (co + 86400),
        time_diff := some ((co : Int) + 86400 - (ci : Int)),
        hours_diff := some (((co : ℚ) + 86400 - (ci : ℚ)) / 3600) } := by
  rw [adjust_checkout_times, List.getElem?_map, hr, Option.map_some']
  rw [adjustRecord, hci, hco]
  simp only [if_pos hlt, Option.map_some', AdjustedRecord.mk.injEq,
    Option.some.injEq, true_and, and_true]
  constructor <;> · push_cast; ring

/-- Witness for C7: checkin 22:00:00 (79200 s), checkout 06:00:00
(21600 s) yields the 8.0-hour overnight shift of the claim. -/
theorem adjust_checkout_times_overnight_witness :
    (adjust_checkout_times [⟨1, 2, ⟨2023, 8, 21⟩, some 79200, some 21600⟩])[0]? =
      some ⟨1, 2, ⟨2023, 8, 21⟩, some 79200, some (21600 + 86400),
        some ((21600 : Int) + 86400 - (79200 : Int)),
        some (((21600 : ℚ) + 86400 - (79200 : ℚ)) / 3600)⟩
    ∧ (((21600 : ℚ) + 86400 - (79200 : ℚ)) / 3600) = 8 :=
  ⟨adjust_checkout_times_overnight
      [⟨1, 2, ⟨2023, 8, 21⟩, some 79200, some 21600⟩] 0
      ⟨1, 2, ⟨2023, 8, 21⟩, some 79200, some 21600⟩ 79200 21600
      rfl rfl rfl (by decide) (by decide) (by decide),
   by norm_num⟩

/-- C8.  A checkout that already encodes a next-day value (duration
above 24 h, as produced by the second imputation rule) with a
time-of-day checkin is left unchanged by `adjust_checkout_times`: the
mask `checkin > checkout` is false, so no further 24 hours are added. -/
theorem adjust_checkout_times_no_double_adjust (ts : List PunchRecord)
    (i : Nat) (r : PunchRecord) (ci co : Nat) (hr : ts[i]? = some r)
    (hci : r.checkin = some ci) (hco : r.checkout = some co)
    (hnext : 86400 < co) (hci24 : ci < 86400) :
    (adjust_checkout_times ts)[i]? = some
      { timesheet_id := r.timesheet_id, employee_id := r.employee_id,
        date := r.date, checkin := some ci, checkout := some co,
        time_diff := some ((co : Int) - (ci : Int)),
        hours_diff := some (((co : ℚ) - (ci : ℚ)) / 3600) } := by
  have hnotlt : ¬ co < ci := by omega
  rw [adjust_checkout_times, List.getElem?_map, hr, Option.map_some']
  rw [adjustRecord, hci, hco]
  simp only [if_neg hnotlt, Option.map_some', AdjustedRecord.mk.injEq,
    Option.some.injEq, true_and, and_true]
  push_cast
  ring

/-- Witness for C8: the imputed next-day checkout 1 day 08:00:00
(115200 s) with checkin 09:00:00 (32400 s) is not adjusted again. -/
theorem adjust_checkout_times_no_double_adjust_witness :
    (adjust_checkout_times [⟨1, 2, ⟨2023, 8, 21⟩, some 32400, some 115200⟩])[0]? =
      some ⟨1, 2, ⟨2023, 8, 21⟩, some 32400, some 115200,
        some ((115200 : Int) - (32400 : Int)),
        some (((115200 : ℚ) - (32400 : ℚ)) / 3600)⟩ :=
  adjust_checkout_times_no_double_adjust
    [⟨1, 2, ⟨2023, 8, 21⟩, some 32400, some 115200⟩] 0
    ⟨1, 2, ⟨2023, 8, 21⟩, some 32400, some 115200⟩ 32400 115200
    rfl rfl rfl (by decide) (by decide)

/-- C5 (amended).  Any punch record that enters `transform_times` and
`adjust_checkout_times` with time-of-day values (below 24 h) and at
least one of checkin/checkout present comes out with both times
present, and its `hours_diff` equals (checkout - checkin) / 3600 in
fractional hours and is nonnegative — regardless of what the other rows
of the table contain.  (A record with both times missing falls through
all rules and stays null: see the C5 counterexample.) -/
theorem transform_adjust_times_present_nonneg (ts : List PunchRecord)
    (i : Nat) (r : PunchRecord) (hr : ts[i]? = some r)
    (hci : ∀ ci, r.checkin = some ci → ci < 86400)
    (hco : ∀ co, r.checkout = some co → co < 86400)
    (hpresent : r.checkin ≠ none ∨ r.checkout ≠ none) :
    ∃ r', (adjust_checkout_times (transform_times ts))[i]? = some r' ∧
      r'.checkin.isSome ∧ r'.checkout.isSome ∧
      r'.hours_diff =
        some (((r'.checkout.getD 0 : ℚ) - (r'.checkin.getD 0 : ℚ)) / 3600) ∧
      0 ≤ ((r'.checkout.getD 0 : ℚ) - (r'.checkin.getD 0 : ℚ)) / 3600 := by
  have hcell : (adjust_checkout_times (transform_times ts))[i]? =
      some (adjustRecord (ruleTableSpec r)) := by
    rw [adjust_checkout_times, List.getElem?_map, transform_times,
      process_timesheets_column, process_timesheets_column,
      List.getElem?_map, List.getElem?_map, hr]
    simp only [Option.map_some']
    rw [npSelect_rules_eq_spec r]
  refine ⟨adjustRecord (ruleTableSpec r), hcell, ?_⟩
  obtain ⟨tid, eid, d, ci?, co?⟩ := r
  rcases hcic : ci? with _ | ci <;> rcases hcoc : co? with _ | co
  · subst hcic; subst hcoc; simp at hpresent
  · -- checkin missing, checkout present
    subst hcic; subst hcoc
    have hco' : co < 86400 := hco co rfl
    by_cases h : co ≤ 32400
    · have h0 : ¬ co < 0 := by omega
      simp [ruleTableSpec, adjustRecord, h, h0]
      positivity
    · have h32 : ¬ co < 32400 := by omega
      have hsub : (32400 : ℚ) ≤ (co : ℚ) := by
        exact_mod_cast Nat.le_of_not_lt h32
      simp [ruleTableSpec, adjustRecord, h, h32]
      apply div_nonneg _ (by norm_num)
      linarith
  · -- checkin present, checkout missing
    subst hcic; subst hcoc
    have hci' : ci < 86400 := hci ci rfl
    by_cases h : ci ≤ 43200
    · have hlt : ¬ (64800 < ci) := by omega
      have hsub : (ci : ℚ) ≤ 64800 := by
        exact_mod_cast Nat.le_of_lt (by omega : ci < 64800)
      simp [ruleTableSpec, adjustRecord, h, hlt]
      apply div_nonneg _ (by norm_num)
      linarith
    · have hlt : ¬ (115200 < ci) := by omega
      have hsub : (ci : ℚ) ≤ 115200 := by
        exact_mod_cast Nat.le_of_lt (by omega : ci < 115200)
      simp [ruleTableSpec, adjustRecord, h, hlt]
      apply div_nonneg _ (by norm_num)
      linarith
  · -- both present
    subst hcic; subst hcoc
    have hci' : ci < 86400 := hci ci rfl
    by_cases h : co < ci
    · have hsub : (ci : ℚ) ≤ (co : ℚ) + 86400 := by
        have : ci ≤ co + 86400 := by omega
        exact_mod_cast this
      simp [ruleTableSpec, adjustRecord, h]
      apply div_nonneg _ (by norm_num)
      linarith
    · have hsub : (ci : ℚ) ≤ (co : ℚ) := by
        exact_mod_cast Nat.le_of_not_lt h
      simp [ruleTableSpec, adjustRecord, h]
      apply div_nonneg _ (by norm_num)
      linarith

/-- Witness for C5, on a mixed table: row 0 has both times missing (and
stays null), yet the theorem applies to row 1 (checkin 10:00:00,
missing checkout), which is imputed to checkout 18:00:00 and yields
8 nonnegative hours. -/
theorem transform_adjust_times_present_nonneg_witness :
    ∃ r', (adjust_checkout_times (transform_times
        [⟨1, 2, ⟨2023, 8, 21⟩, none, none⟩,
         ⟨2, 2, ⟨2023, 8, 21⟩, some 36000, none⟩]))[1]? = some r' ∧
      r'.checkin.isSome ∧ r'.checkout.isSome ∧
      r'.hours_diff =
        some (((r'.checkout.getD 0 : ℚ) - (r'.checkin.getD 0 : ℚ)) / 3600) ∧
      0 ≤ ((r'.checkout.getD 0 : ℚ) - (r'.checkin.getD 0 : ℚ)) / 3600 :=
  transform_adjust_times_present_nonneg
    [⟨1, 2, ⟨2023, 8, 21⟩, none, none⟩,
     ⟨2, 2, ⟨2023, 8, 21⟩, some 36000, none⟩]
    1 ⟨2, 2, ⟨2023, 8, 21⟩, some 36000, none⟩ rfl
    (fun ci h => by simp at h; omega)
    (fun co h => by simp at h)
    (Or.inl (by simp))

/-- With pairwise distinct employee ids, at most one employee row
matches a given id. -/
lemma filter_employe_id_length_le (employees : List EmployeeRecord) (x : Nat)
    (h : (employees.map EmployeeRecord.employe_id).Nodup) :
    (employees.filter (fun e => decide (e.employe_id = x))).length ≤ 1 := by
  induction employees with
  | nil => simp
  | cons e es ih =>
      rw [List.map_cons, List.nodup_cons] at h
      by_cases hx : e.employe_id = x
      · have hnil : es.filter (fun e' => decide (e'.employe_id = x)) = [] := by
          rw [List.filter_eq_nil_iff]
          intro a ha hax
          rw [decide_eq_true_eq] at hax
          exact h.1 (List.mem_map.mpr ⟨a, ha, by rw [hax, hx]⟩)
        simp [hx, hnil]
      · simp only [List.filter_cons, decide_eq_true_eq, if_neg hx]
        exact ih h.2

/-- With pairwise distinct employee ids, each punch row produces
exactly one merged row. -/
lemma mergeRow_length (employees : List EmployeeRecord) (t : AdjustedRecord)
    (hids : (employees.map EmployeeRecord.employe_id).Nodup) :
    (mergeRow employees t).length = 1 := by
  unfold mergeRow
  rcases hf : employees.filter (fun e => decide (e.employe_id = t.employee_id))
    with _ | ⟨e, rest⟩
  · simp only [hf]
    rfl
  · have hle := filter_employe_id_length_le employees t.employee_id hids
    rw [hf] at hle
    have : rest = [] := by
      cases rest with
      | nil => rfl
      | cons f fs => simp at hle
    subst this
    simp only [hf]
    rfl

/-- C3 (amended).  When the employee table's ids are pairwise distinct
(after the rename of `employe_id`), the left outer join of
`merge_employees_timesheets` neither drops nor duplicates punch rows:
the merged table has exactly as many rows as the punch table, for any
punch table and any such employee table, including an empty one.  (An
employee table with a repeated id duplicates the matching punch rows:
see the C3 counterexample.) -/
theorem merge_employees_timesheets_length (ts : List AdjustedRecord)
    (employees : List EmployeeRecord)
    (hids : (employees.map EmployeeRecord.employe_id).Nodup) :
    (merge_employees_timesheets ts employees).length = ts.length := by
  unfold merge_employees_timesheets
  induction ts with
  | nil => rfl
  | cons t rest ih =>
      rw [List.flatMap_cons, List.length_append, ih,
        mergeRow_length employees t hids, List.length_cons]
      omega

/-- Witness for C3: one punch merged against two employees with
distinct ids keeps exactly one row. -/
theorem merge_employees_timesheets_length_witness :
    (merge_employees_timesheets
      [⟨1, 5, ⟨2023, 8, 21⟩, some 0, some 3600, some 3600, some 1⟩]
      [⟨5, 1, 100⟩, ⟨6, 2, 200⟩]).length =
      ([⟨1, 5, ⟨2023, 8, 21⟩, some 0, some 3600, some 3600, some 1⟩] :
        List AdjustedRecord).length :=
  merge_employees_timesheets_length
    [⟨1, 5, ⟨2023, 8, 21⟩, some 0, some 3600, some 3600, some 1⟩]
    [⟨5, 1, 100⟩, ⟨6, 2, 200⟩] (by decide)

/-- Key membership after inserting one row into the groups. -/
lemma mem_keys_insertIntoGroups {α κ : Type} [DecidableEq κ] (k k' : κ) (a : α)
    (acc : List (κ × List α)) :
    k' ∈ (insertIntoGroups k a acc).map Prod.fst ↔
      k' = k ∨ k' ∈ acc.map Prod.fst := by
  induction acc with
  | nil => simp [insertIntoGroups]
  | cons p rest ih =>
      rcases p with ⟨k0, g⟩
      by_cases h : k = k0
      · subst h
        simp [insertIntoGroups]
      · simp [insertIntoGroups, h, ih]
        tauto

/-- Inserting a row never duplicates a group key. -/
lemma nodup_keys_insertIntoGroups {α κ : Type} [DecidableEq κ] (k : κ) (a : α)
    (acc : List (κ × List α)) (h : (acc.map Prod.fst).Nodup) :
    ((insertIntoGroups k a acc).map Prod.fst).Nodup := by
  induction acc with
  | nil => simp [insertIntoGroups]
  | cons p rest ih =>
      rcases p with ⟨k0, g⟩
      rw [List.map_cons, List.nodup_cons] at h
      by_cases hk : k = k0
      · subst hk
        simpa [insertIntoGroups] using h
      · rw [insertIntoGroups]
        rw [if_neg hk]
        rw [List.map_cons, List.nodup_cons]
        refine ⟨?_, ih h.2⟩
        rw [mem_keys_insertIntoGroups]
        rintro (rfl | hmem)
        · exact hk rfl
        · exact h.1 hmem

/-- Keys of a partially accumulated `groupby`. -/
lemma mem_keys_groupby_aux {α κ : Type} [DecidableEq κ] (key : α → κ)
    (rows : List α) : ∀ (acc : List (κ × List α)) (k : κ),
    k ∈ ((rows.foldl (fun acc a => insertIntoGroups (key a) a acc) acc).map
        Prod.fst) ↔
      k ∈ acc.map Prod.fst ∨ ∃ a ∈ rows, key a = k := by
  induction rows with
  | nil => simp
  | cons a rows ih =>
      intro acc k
      rw [List.foldl_cons, ih]
      simp only [mem_keys_insertIntoGroups, List.mem_cons]
      constructor
      · rintro ((rfl | h) | ⟨c, hc, rfl⟩)
        · exact Or.inr ⟨a, Or.inl rfl, rfl⟩
        · exact Or.inl h
        · exact Or.inr ⟨c, Or.inr hc, rfl⟩
      · rintro (h | ⟨c, (rfl | hc), rfl⟩)
        · exact Or.inl (Or.inr h)
        · exact Or.inl (Or.inl rfl)
        · exact Or.inr ⟨c, hc, rfl⟩

/-- `groupby` has a group for exactly the keys occurring in the rows. -/
lemma mem_keys_groupby {α κ : Type} [DecidableEq κ] (key : α → κ)
    (rows : List α) (k : κ) :
    k ∈ (groupby key rows).map Prod.fst ↔ ∃ a ∈ rows, key a = k := by
  unfold groupby
  rw [mem_keys_groupby_aux]
  simp

/-- `groupby` never duplicates keys (accumulating version). -/
lemma nodup_keys_groupby_aux {α κ : Type} [DecidableEq κ] (key : α → κ)
    (rows : List α) : ∀ (acc : List (κ × List α)),
    (acc.map Prod.fst).Nodup →
    ((rows.foldl (fun acc a => insertIntoGroups (key a) a acc) acc).map
        Prod.fst).Nodup := by
  induction rows with
  | nil => exact fun acc h => h
  | cons a rows ih =>
      intro acc h
      rw [List.foldl_cons]
      exact ih _ (nodup_keys_insertIntoGroups (key a) a acc h)

/-- The group keys of a `groupby` are pairwise distinct. -/
lemma nodup_keys_groupby {α κ : Type} [DecidableEq κ] (key : α → κ)
    (rows : List α) : ((groupby key rows).map Prod.fst).Nodup :=
  nodup_keys_groupby_aux key rows [] List.nodup_nil

/-- With distinct keys, exactly one group carries a present key. -/
lemma countP_fst_eq_one {α κ : Type} [DecidableEq κ] (l : List (κ × List α))
    (k : κ) (hnd : (l.map Prod.fst).Nodup) (hk : k ∈ l.map Prod.fst) :
    l.countP (fun p => decide (p.1 = k)) = 1 := by
  induction l with
  | nil => simp at hk
  | cons p rest ih =>
      rw [List.map_cons, List.nodup_cons] at hnd
      rw [List.map_cons, List.mem_cons] at hk
      rw [List.countP_cons]
      rcases hk with rfl | hk
      · have h0 : rest.countP (fun q => decide (q.1 = p.1)) = 0 := by
          rw [List.countP_eq_zero]
          intro q hq
          simp only [decide_eq_true_eq]
          intro hq1
          exact hnd.1 (List.mem_map.mpr ⟨q, hq, hq1⟩)
        simp [h0]
      · have h1 : ¬ p.1 = k := fun he => hnd.1 (he ▸ hk)
        rw [ih hnd.2 hk]
        simp [h1]

/-- Component-wise variant of `countP_fst_eq_one` for a triple key. -/
lemma countP_keys3_eq_one {α : Type} (l : List ((Nat × Nat × Nat) × List α))
    (y m b : Nat) (hnd : (l.map Prod.fst).Nodup)
    (hk : (y, m, b) ∈ l.map Prod.fst) :
    l.countP (fun p => decide (p.1.1 = y ∧ p.1.2.1 = m ∧ p.1.2.2 = b)) = 1 := by
  have h : (fun p : (Nat × Nat × Nat) × List α =>
      decide (p.1.1 = y ∧ p.1.2.1 = m ∧ p.1.2.2 = b)) =
        (fun p => decide (p.1 = (y, m, b))) := by
    funext p
    rw [decide_eq_decide, Prod.ext_iff, Prod.ext_iff]
  rw [h]
  exact countP_fst_eq_one l (y, m, b) hnd hk

/-- Inserting a row adds its value to the total of the group sums. -/
lemma sum_map_insertIntoGroups {α κ : Type} [DecidableEq κ] (f : α → ℚ)
    (k : κ) (a : α) (acc : List (κ × List α)) :
    ((insertIntoGroups k a acc).map (fun kg => (kg.2.map f).sum)).sum =
      f a + ((acc.map (fun kg => (kg.2.map f).sum)).sum) := by
  induction acc with
  | nil => simp [insertIntoGroups]
  | cons p rest ih =>
      rcases p with ⟨k0, g⟩
      by_cases h : k = k0
      · subst h
        simp [insertIntoGroups]
        ring
      · simp [insertIntoGroups, h, ih]
        ring

/-- Group sums of a partially accumulated `groupby`. -/
lemma sum_map_groupby_aux {α κ : Type} [DecidableEq κ] (key : α → κ)
    (f : α → ℚ) (rows : List α) : ∀ (acc : List (κ × List α)),
    (((rows.foldl (fun acc a => insertIntoGroups (key a) a acc) acc).map
        (fun kg => (kg.2.map f).sum)).sum) =
      (rows.map f).sum + ((acc.map (fun kg => (kg.2.map f).sum)).sum) := by
  induction rows with
  | nil => simp
  | cons a rows ih =>
      intro acc
      rw [List.foldl_cons, ih, sum_map_insertIntoGroups]
      rw [List.map_cons, List.sum_cons]
      ring

/-- Summing a value over the groups of a `groupby` equals summing it
over the rows: grouping loses no row. -/
lemma sum_map_groupby {α κ : Type} [DecidableEq κ] (key : α → κ) (f : α → ℚ)
    (rows : List α) :
    ((groupby key rows).map (fun kg => (kg.2.map f).sum)).sum =
      (rows.map f).sum := by
  unfold groupby
  rw [sum_map_groupby_aux]
  simp

/-- C1 (amended).  Every merged row with non-null compensation fields
(`branch_id` and `salary` both present) contributes to exactly one
aggregated record — exactly one output row carries its
(year, month, branch) key — and the aggregation is exhaustive over those
rows: the output's total hours equal the summed hours of all rows that
survive the grouping-key null check.  (A row with a null `branch_id` or
`salary` — an unmatched employee join — is dropped by the stage-1 pandas
`groupby` and contributes to no aggregated record: see the C1
counterexample.) -/
theorem aggregate_data_partitions_nonnull (merged : List MergedRecord)
    (r : MergedRecord) (b : Nat) (s : ℚ) (hr : r ∈ merged)
    (hb : r.branch_id = some b) (hs : r.salary = some s) :
    ((aggregate_data merged).countP
        (fun g => decide (g.year = r.year ∧ g.month = r.month ∧
          g.branch_id = b))) = 1 ∧
    ((aggregate_data merged).map AggregatedRecord.hours_diff).sum =
      ((keptRows merged).map (fun q => q.hours_diff.getD 0)).sum := by
  constructor
  · have hq : (⟨r.year, r.month, b, s, r.hours_diff⟩ : KeyedMergedRow) ∈
        keptRows merged := by
      unfold keptRows
      refine List.mem_filterMap.mpr ⟨r, hr, ?_⟩
      rw [hb, hs]
    have hk4 : ((r.year, r.month, b, s) : Nat × Nat × Nat × ℚ) ∈
        ((groupby (fun q : KeyedMergedRow =>
          (q.year, q.month, q.branch_id, q.salary)) (keptRows merged)).map
            Prod.fst) :=
      (mem_keys_groupby _ _ _).mpr ⟨_, hq, rfl⟩
    rcases List.mem_map.mp hk4 with ⟨kg, hkg, hfst⟩
    have hk3 : ((r.year, r.month, b) : Nat × Nat × Nat) ∈
        ((groupby (fun t : StageOneRecord => (t.year, t.month, t.branch_id))
          (stageOne merged)).map Prod.fst) := by
      refine (mem_keys_groupby _ _ _).mpr
        ⟨_, List.mem_map.mpr ⟨kg, hkg, rfl⟩, ?_⟩
      rw [show kg.1 = (r.year, r.month, b, s) from hfst]
    have hnd := nodup_keys_groupby
      (fun t : StageOneRecord => (t.year, t.month, t.branch_id))
      (stageOne merged)
    unfold aggregate_data
    rw [List.countP_map]
    show ((groupby (fun t : StageOneRecord => (t.year, t.month, t.branch_id))
        (stageOne merged)).countP
      (fun kg => decide (kg.1.1 = r.year ∧ kg.1.2.1 = r.month ∧
        kg.1.2.2 = b))) = 1
    exact countP_keys3_eq_one _ _ _ _ hnd hk3
  · unfold aggregate_data
    rw [List.map_map]
    show ((groupby (fun t : StageOneRecord => (t.year, t.month, t.branch_id))
        (stageOne merged)).map
      (fun kg => (kg.2.map StageOneRecord.hours_diff).sum)).sum = _
    rw [sum_map_groupby]
    unfold stageOne
    rw [List.map_map]
    show ((groupby (fun q : KeyedMergedRow =>
        (q.year, q.month, q.branch_id, q.salary)) (keptRows merged)).map
      (fun kg => (kg.2.map (fun q => q.hours_diff.getD 0)).sum)).sum = _
    rw [sum_map_groupby]

/-- Witness for C1: a matched merged row (branch 9, salary 3000,
1 hour) yields exactly one aggregated record with its key, and the
output hours exhaust the kept rows' hours. -/
theorem aggregate_data_partitions_nonnull_witness :
    ((aggregate_data
        [⟨1, 5, ⟨2023, 8, 21⟩, some 0, some 3600, some 3600, some 1,
          some 9, some 3000, 2023, 8⟩]).countP
      (fun g => decide (g.year = 2023 ∧ g.month = 8 ∧ g.branch_id = 9))) = 1 ∧
    ((aggregate_data
        [⟨1, 5, ⟨2023, 8, 21⟩, some 0, some 3600, some 3600, some 1,
          some 9, some 3000, 2023, 8⟩]).map AggregatedRecord.hours_diff).sum =
      ((keptRows
        [⟨1, 5, ⟨2023, 8, 21⟩, some 0, some 3600, some 3600, some 1,
          some 9, some 3000, 2023, 8⟩]).map
        (fun q => q.hours_diff.getD 0)).sum :=
  aggregate_data_partitions_nonnull
    [⟨1, 5, ⟨2023, 8, 21⟩, some 0, some 3600, some 3600, some 1,
      some 9, some 3000, 2023, 8⟩]
    ⟨1, 5, ⟨2023, 8, 21⟩, some 0, some 3600, some 3600, some 1,
      some 9, some 3000, 2023, 8⟩
    9 3000 (List.mem_singleton.mpr rfl) rfl rfl

/-- Filtering rows by a row property commutes with dropping the index. -/
lemma length_filter_map_snd (l : List (Nat × PunchRecord))
    (q : PunchRecord → Bool) :
    ((l.map Prod.snd).filter q).length = (l.filter (fun p => q p.2)).length := by
  induction l with
  | nil => rfl
  | cons p rest ih => by_cases h : q p.2 <;> simp [h, ih]

/-- Two filters over the same list commute. -/
lemma filter_comm' {β : Type} (l : List β) (p q : β → Bool) :
    (l.filter p).filter q = (l.filter q).filter p := by
  induction l with
  | nil => rfl
  | cons b rest ih =>
      by_cases hp : p b <;> by_cases hq : q b <;> simp [hp, hq, ih]

/-- A key's subset of the indexed table is as long as its pair count. -/
lemma subset_length (ts : List PunchRecord) (k : Nat × Date) :
    (subsetFor ts.enum k).length = pairCount ts k := by
  show (ts.enum.filter (fun p => decide (rkey p.2 = k))).length =
    (ts.filter (fun r => decide (rkey r = k))).length
  have h := length_filter_map_snd ts.enum (fun r => decide (rkey r = k))
  rw [List.enum_map_snd] at h
  exact h.symm

/-- The surviving rows of a key are its subset minus the deleted
indices. -/
lemma pairCount_remove_duplicates_eq (ts : List PunchRecord) (k : Nat × Date) :
    pairCount (remove_duplicates ts) k =
      ((subsetFor ts.enum k).filter (fun p =>
        decide (p.1 ∉ (ts.enum.filter
            (fun q => decide (2 ≤ pairCount ts (rkey q.2)))).flatMap
          (fun q => rowMarks ts.enum (rkey q.2))))).length := by
  calc pairCount (remove_duplicates ts) k
      = (((ts.enum.filter (fun p => decide (p.1 ∉ (ts.enum.filter
            (fun q => decide (2 ≤ pairCount ts (rkey q.2)))).flatMap
          (fun q => rowMarks ts.enum (rkey q.2))))).map Prod.snd).filter
            (fun r => decide (rkey r = k))).length := rfl
    _ = ((ts.enum.filter (fun p => decide (p.1 ∉ (ts.enum.filter
            (fun q => decide (2 ≤ pairCount ts (rkey q.2)))).flatMap
          (fun q => rowMarks ts.enum (rkey q.2))))).filter
            (fun p => decide (rkey p.2 = k))).length :=
        length_filter_map_snd _ _
    _ = _ := by rw [filter_comm']; rfl

/-- C2 (amended).  For a punch table in which every (employee id, date)
group has size at most 2 and every size-2 group is resolvable — some
record of the pair has a null checkout, or the two records coincide on
every column except `timesheet_id` — `remove_duplicates` leaves at most
one record per (employee id, date) pair.  (A size-2 group of two fully
populated, genuinely different records triggers neither deletion rule
and survives whole: see the C2 counterexample.) -/
theorem remove_duplicates_resolved (ts : List PunchRecord)
    (hsize : ∀ r ∈ ts, pairCount ts (rkey r) ≤ 2)
    (hres : ∀ p ∈ ts.enum, ∀ q ∈ ts.enum, p.1 ≠ q.1 → rkey p.2 = rkey q.2 →
        p.2.checkout = none ∨ q.2.checkout = none ∨ eqExceptId p.2 q.2)
    (k : Nat × Date) :
    pairCount (remove_duplicates ts) k ≤ 1 := by
  rw [pairCount_remove_duplicates_eq]
  rcases Nat.lt_or_ge (pairCount ts k) 2 with hlt | hge
  · calc ((subsetFor ts.enum k).filter _).length
        ≤ (subsetFor ts.enum k).length := List.length_filter_le _ _
      _ = pairCount ts k := subset_length ts k
      _ ≤ 1 := by omega
  · have hb : pairCount ts k ≤ 2 := by
      have hpos : 0 < (ts.filter (fun r => decide (rkey r = k))).length := by
        have : 0 < pairCount ts k := by omega
        exact this
      obtain ⟨r, hrmem⟩ := List.exists_mem_of_length_pos hpos
      obtain ⟨hrts, hrk⟩ := List.mem_filter.mp hrmem
      rw [decide_eq_true_eq] at hrk
      calc pairCount ts k = pairCount ts (rkey r) := by rw [hrk]
        _ ≤ 2 := hsize r hrts
    have h2 : pairCount ts k = 2 := le_antisymm hb hge
    have hsub2 : (subsetFor ts.enum k).length = 2 := by
      rw [subset_length]; exact h2
    obtain ⟨p, q, hpq⟩ := List.length_eq_two.mp hsub2
    have hpmem : p ∈ subsetFor ts.enum k := by rw [hpq]; simp
    have hqmem : q ∈ subsetFor ts.enum k := by rw [hpq]; simp
    have hpents : p ∈ ts.enum ∧ rkey p.2 = k := by
      have h := List.mem_filter.mp hpmem
      rw [decide_eq_true_eq] at h
      exact h
    have hqents : q ∈ ts.enum ∧ rkey q.2 = k := by
      have h := List.mem_filter.mp hqmem
      rw [decide_eq_true_eq] at h
      exact h
    have hnodup : ((subsetFor ts.enum k).map Prod.fst).Nodup := by
      have hsl : List.Sublist (subsetFor ts.enum k) ts.enum :=
        List.filter_sublist _
      have hr : (ts.enum.map Prod.fst).Nodup := by
        rw [List.enum_map_fst]
        exact List.nodup_range _
      exact hr.sublist (hsl.map Prod.fst)
    have hij : p.1 ≠ q.1 := by
      rw [hpq] at hnodup
      simp at hnodup
      exact hnodup
    have hmark : ∃ d, rowMarks ts.enum k = [d] ∧ (d = p.1 ∨ d = q.1) := by
      unfold rowMarks
      rw [hpq]
      rcases hpco : p.2.checkout with _ | vco
      · refine ⟨p.1, ?_, Or.inl rfl⟩
        simp [List.filter_cons, hpco]
      · rcases hqco : q.2.checkout with _ | wco
        · refine ⟨q.1, ?_, Or.inr rfl⟩
          simp [List.filter_cons, hpco, hqco]
        · have heq : eqExceptId p.2 q.2 := by
            rcases hres p hpents.1 q hqents.1 hij
                (by rw [hpents.2, hqents.2]) with h | h | h
            · rw [hpco] at h; simp at h
            · rw [hqco] at h; simp at h
            · exact h
          refine ⟨q.1, ?_, Or.inr rfl⟩
          simp [List.filter_cons, hpco, hqco, firstDupIdx, heq]
    obtain ⟨d, hdmarks, hdor⟩ := hmark
    have hddel : d ∈ (ts.enum.filter
        (fun p' => decide (2 ≤ pairCount ts (rkey p'.2)))).flatMap
      (fun p' => rowMarks ts.enum (rkey p'.2)) := by
      refine List.mem_flatMap.mpr ⟨p, ?_, ?_⟩
      · refine List.mem_filter.mpr ⟨hpents.1, ?_⟩
        rw [decide_eq_true_eq, hpents.2, h2]
      · rw [hpents.2, hdmarks]
        exact List.mem_singleton.mpr rfl
    rw [hpq]
    rcases hdor with rfl | rfl
    · have hPp : (decide (p.1 ∉ (ts.enum.filter
          (fun q' => decide (2 ≤ pairCount ts (rkey q'.2)))).flatMap
        (fun q' => rowMarks ts.enum (rkey q'.2)))) = false := by
        simp [hddel]
      rw [List.filter_cons, hPp]
      simp only [Bool.false_eq_true, if_false]
      calc ([q].filter _).length ≤ [q].length := List.length_filter_le _ _
        _ = 1 := rfl
    · have hPq : (decide (q.1 ∉ (ts.enum.filter
          (fun q' => decide (2 ≤ pairCount ts (rkey q'.2)))).flatMap
        (fun q' => rowMarks ts.enum (rkey q'.2)))) = false := by
        simp [hddel]
      rw [List.filter_cons]
      by_cases hPp : (decide (p.1 ∉ (ts.enum.filter
          (fun q' => decide (2 ≤ pairCount ts (rkey q'.2)))).flatMap
        (fun q' => rowMarks ts.enum (rkey q'.2)))) = true
      · rw [if_pos hPp, List.filter_cons, hPq]
        simp
      · rw [if_neg hPp, List.filter_cons, hPq]
        simp

/-- Witness for C2: a pair sharing (employee 7, date) in which the
first record has a null checkout is collapsed to one record. -/
theorem remove_duplicates_resolved_witness :
    pairCount (remove_duplicates
      [⟨1, 7, ⟨2023, 8, 21⟩, some 100, none⟩,
       ⟨2, 7, ⟨2023, 8, 21⟩, some 300, some 400⟩]) (7, ⟨2023, 8, 21⟩) ≤ 1 :=
  remove_duplicates_resolved
    [⟨1, 7, ⟨2023, 8, 21⟩, some 100, none⟩,
     ⟨2, 7, ⟨2023, 8, 21⟩, some 300, some 400⟩]
    (by decide) (by decide) (7, ⟨2023, 8, 21⟩)

/-- Counterexample for C1.  A merged row whose employee id matched no
employee (null `branch_id` and `salary`) is dropped by the stage-1
`groupby` (pandas drops null grouping keys), so it contributes to no
aggregated record at all: the aggregate of this one-row table is empty. -/
theorem aggregate_data_drops_unmatched_row :
    aggregate_data
      [⟨1, 5, ⟨2023, 8, 21⟩, some 0, some 3600, some 3600, some 1,
        none, none, 2023, 8⟩] = [] := rfl

/-- Counterexample for C2.  Two rows share (employee_id 7, date), both
checkouts are non-null, and the rows differ beyond `timesheet_id`
(different checkin), so neither deletion rule fires: `remove_duplicates`
keeps both rows even though the group has size 2. -/
theorem remove_duplicates_keeps_distinct_pair :
    pairCount
      (remove_duplicates
        [⟨1, 7, ⟨2023, 8, 21⟩, some 100, some 200⟩,
         ⟨2, 7, ⟨2023, 8, 21⟩, some 300, some 400⟩])
      (7, ⟨2023, 8, 21⟩) = 2 := by decide

/-- Counterexample for C3.  With two employee rows sharing
`employe_id = 5`, the left join duplicates the single punch row: the
merged table has 2 rows, not 1. -/
theorem merge_employees_timesheets_duplicates_row :
    (merge_employees_timesheets
      [⟨1, 5, ⟨2023, 8, 21⟩, some 0, some 3600, some 3600, some 1⟩]
      [⟨5, 1, 100⟩, ⟨5, 2, 200⟩]).length = 2 := by decide

/-- Counterexample for C5.  A punch with both times missing matches no
imputation rule (each rule's condition reads the other, equally missing,
column), so after `transform_times` and `adjust_checkout_times` the
record still has null checkin, null checkout, and a null `hours_diff`. -/
theorem pipeline_missing_both_times_stay_null :
    (adjust_checkout_times (transform_times
        [⟨1, 2, ⟨2023, 8, 21⟩, none, none⟩])).map
      (fun r => (r.checkin, r.checkout, r.hours_diff)) =
      [(none, none, none)] := by decide

end DESalary
